import Mathlib

/-!
Shallow embedding of the retrieval-orchestration and caching layer of the
helia-ia-frontend repository, together with proofs settling the frozen
claims about it.

The embedding covers:
* the service worker's module-level Helia construction state (`initHelia`,
  `doInitialization` bookkeeping) as an explicit state machine;
* the service worker's shallow directory listing and background
  subdirectory processing (`performShallowRetrieval`,
  `processSubdirectoriesInBackground`) as pure functions over the sequence
  of entries the underlying UnixFS iterator yields;
* progress-message delivery (`sendProgressMessage`, `sendMessageToClient`);
* the ServiceWorkerManager's localStorage-backed directory cache
  (`getCachedDirectoryListing`, `setCachedDirectoryListing`,
  `performShallowRetrieval`, `getItemListing`) with localStorage modelled
  as an association list threaded through every operation;
* the page-side background-discovery handler from Home.jsx that merges
  newly found subdirectory files into the cached record;
* the fetch-interception MIME selection (`getMimeType` and the
  `/ipfs-sw/` URL matcher).

JavaScript values that may be a string, a double, a BigInt or `undefined`
are modelled by `JVal`; machine clock readings (`Date.now()`) are `Nat`
milliseconds passed explicitly; JSON round-tripping through localStorage is
the identity on the typed records stored there (after the BigInt-to-string
conversion the code performs, every stored value is JSON-safe).
-/

/-- A JavaScript value as it can appear in a directory-entry field:
a string, a (double) number, a BigInt, or `undefined`.  The code's
`typeof v === 'bigint'` test distinguishes `big` from `num`. -/
inductive JVal where
  | str (s : String)
  | num (n : Int)
  | big (n : Int)
  | undef
deriving Repr, DecidableEq

/-- The service worker's `FileEntry` record:
`{ name: string; cid: string; size?: number; type: string }`.
`size` is kept as a `JVal` because the defensive serialization loop in
`setCachedDirectoryListing` may also see BigInt sizes there; `name`, `cid`
and `type` are strings by the interface, so the per-key BigInt conversion
is the identity on them. (`type` is a Lean keyword, hence `etype`.) -/
structure FileEntry where
  name : String
  cid : String
  size : JVal
  etype : String
deriving Repr, DecidableEq

/-- The BigInt-to-string conversion applied to one value by
`setCachedDirectoryListing`: `if (typeof v === 'bigint') v = v.toString()`.
JavaScript `BigInt.prototype.toString()` produces the decimal
representation, `-` included, exactly as Lean's `toString : Int → String`. -/
def coerceBigInt : JVal → JVal
  | .big n => .str (toString n)
  | v => v

/-- One file object as serialized for the cache: a copy of the entry with
every BigInt-valued field converted to its decimal string.  Only `size`
can hold a BigInt (the other fields are strings), so the
`Object.keys(...).forEach` loop in the source reduces to converting
`size`. -/
def serializeFile (f : FileEntry) : FileEntry :=
  { f with size := coerceBigInt f.size }

/-- The persisted cache record `{ files, timestamp, cid }`. -/
structure CacheRecord where
  files : List FileEntry
  timestamp : Nat
  cid : String
deriving Repr, DecidableEq

/-- localStorage, restricted to this app's usage: a key-to-record map
modelled as an association list without duplicate-key insertion. -/
abbrev Store := List (String × CacheRecord)

namespace LocalStorage

/-- `localStorage.getItem` (with `JSON.parse` of the stored string). -/
def getItem : Store → String → Option CacheRecord
  | [], _ => none
  | (k', v') :: rest, k => if k' = k then some v' else getItem rest k

/-- `localStorage.setItem` (with `JSON.stringify`): overwrites the value
under an existing key, otherwise appends the new pair. -/
def setItem : Store → String → CacheRecord → Store
  | [], k, v => [(k, v)]
  | (k', v') :: rest, k, v =>
      if k' = k then (k, v) :: rest else (k', v') :: setItem rest k v

/-- `localStorage.removeItem`. -/
def removeItem : Store → String → Store
  | [], _ => []
  | (k', v') :: rest, k =>
      if k' = k then removeItem rest k else (k', v') :: removeItem rest k

end LocalStorage

namespace Manager

/-- The cache key built from the manager's `cachePrefix` field
(`'helia_directory_'`) and the CID. -/
def cacheKey (cid : String) : String := "helia_directory_" ++ cid

/-- The 30-day retention window, in milliseconds:
`30 * 24 * 60 * 60 * 1000`. -/
def retentionWindowMs : Nat := 30 * 24 * 60 * 60 * 1000

/-- `ServiceWorkerManager.getCachedDirectoryListing(cid)`.
Reads the record under the cache key; if `data.timestamp` is truthy and
younger than the retention window the stored `files` are returned,
otherwise the expired record is removed and `null` is returned.  `now` is
the `Date.now()` reading.  Returns the (possibly updated) store alongside
the result.  JavaScript computes `now - timestamp` as a signed number; a
future timestamp gives a negative age, which is below the window exactly
as the truncated `Nat` subtraction is. -/
def getCachedDirectoryListing (store : Store) (now : Nat) (cid : String) :
    Option (List FileEntry) × Store :=
  match LocalStorage.getItem store (cacheKey cid) with
  | some data =>
      if data.timestamp ≠ 0 ∧ now - data.timestamp < retentionWindowMs then
        (some data.files, store)
      else
        (none, LocalStorage.removeItem store (cacheKey cid))
  | none => (none, store)

/-- `ServiceWorkerManager.setCachedDirectoryListing(cid, files)`.
Serializes the files (BigInt fields to decimal strings) and stores
`{ files, timestamp: Date.now(), cid }` under the cache key.  The
quota-exceeded fallback (`clearOldCacheEntries`) is not modelled: writes
succeed. -/
def setCachedDirectoryListing (store : Store) (now : Nat) (cid : String)
    (files : List FileEntry) : Store :=
  LocalStorage.setItem store (cacheKey cid)
    { files := files.map serializeFile, timestamp := now, cid := cid }

/-- Result of `ServiceWorkerManager.performShallowRetrieval`: the files
handed back to the caller, the updated localStorage contents, and whether
a `SHALLOW_RETRIEVAL` message was sent to the service worker. -/
structure RetrievalResult where
  files : List FileEntry
  store : Store
  networkRequested : Bool
deriving Repr, DecidableEq

/-- `ServiceWorkerManager.performShallowRetrieval(cid, onProgress)`:
cache first; on a miss, send `SHALLOW_RETRIEVAL` to the service worker
(whose eventual response is the `networkFiles` argument) and cache the
result. -/
def performShallowRetrieval (store : Store) (now : Nat) (cid : String)
    (networkFiles : List FileEntry) : RetrievalResult :=
  match getCachedDirectoryListing store now cid with
  | (some cachedFiles, store') =>
      { files := cachedFiles, store := store', networkRequested := false }
  | (none, store') =>
      { files := networkFiles
        store := setCachedDirectoryListing store' now cid networkFiles
        networkRequested := true }

end Manager

namespace SW

/-- The service worker module's construction-related global state:
`helia`, `fs`, `verifiedFetch` (abstract handles, `none` = JS `null`),
`isInitializing`, `initializationPromise` (promises named by `Nat` ids),
plus a ghost counter of how many times `doInitialization` has been
invoked. -/
structure SWState where
  helia : Option Nat
  fs : Option Nat
  verifiedFetch : Option Nat
  isInitializing : Bool
  initializationPromise : Option Nat
  attempts : Nat
deriving Repr, DecidableEq

/-- What one `initHelia()` call does before its first suspension:
either it returns immediately with the current references
(`if (helia && fs)`), or it ends up awaiting a promise — the in-flight
one (`if (isInitializing && initializationPromise)`), or a fresh one it
just created by calling `doInitialization()`. -/
inductive AcquireOutcome where
  | immediate (helia fs verifiedFetch : Option Nat)
  | awaits (promiseId : Nat)
deriving Repr, DecidableEq

/-- The fresh service-worker state at module load. -/
def swState0 : SWState :=
  { helia := none, fs := none, verifiedFetch := none,
    isInitializing := false, initializationPromise := none, attempts := 0 }

/-- The synchronous prefix of `initHelia()`.  `freshPromise` names the
promise a newly started `doInitialization()` call would produce; starting
one bumps the `attempts` ghost counter. -/
def initHelia (s : SWState) (freshPromise : Nat) : AcquireOutcome × SWState :=
  if s.helia.isSome ∧ s.fs.isSome then
    (.immediate s.helia s.fs s.verifiedFetch, s)
  else if s.isInitializing ∧ s.initializationPromise.isSome then
    (.awaits (s.initializationPromise.getD 0), s)
  else
    (.awaits freshPromise,
     { s with isInitializing := true,
              initializationPromise := some freshPromise,
              attempts := s.attempts + 1 })

/-- The synchronous block of `doInitialization` that runs when the
`createHeliaHTTP` race resolves: `helia = ...; fs = unixfs(helia)` are
assigned back-to-back with no suspension between them, after which the
function suspends again on `await createVerifiedFetch(helia)`. -/
def midCreateAssign (s : SWState) (h f : Nat) : SWState :=
  { s with helia := some h, fs := some f }

/-- Successful completion: `verifiedFetch` is assigned, `doInitialization`
returns, and the first caller's continuation clears `isInitializing`
(the promise reference is left in place on success). -/
def settleSuccess (s : SWState) (vf : Nat) : SWState :=
  { s with verifiedFetch := some vf, isInitializing := false }

/-- The `{ helia, fs, verifiedFetch }` object `doInitialization` returns
on success, read from the globals at return time; every caller awaiting
the construction promise receives this same value. -/
def promiseValue (s : SWState) (vf : Nat) : AcquireOutcome :=
  .immediate s.helia s.fs (some vf)

/-- Failed completion: `doInitialization`'s catch block nulls `helia`,
`fs` and `verifiedFetch`, and the first caller's catch block clears
`isInitializing` and `initializationPromise`; the rejection is delivered
to every caller awaiting the promise. -/
def settleFailure (s : SWState) : SWState :=
  { s with helia := none, fs := none, verifiedFetch := none,
           isInitializing := false, initializationPromise := none }

/-- `k` consecutive `initHelia()` call prefixes (fresh promise names
counting up from `freshPromise`), returning every caller's outcome and
the final state. -/
def acquireK (s : SWState) (freshPromise : Nat) :
    Nat → List AcquireOutcome × SWState
  | 0 => ([], s)
  | k + 1 =>
      let (o, s') := initHelia s freshPromise
      let (os, s'') := acquireK s' (freshPromise + 1) k
      (o :: os, s'')

/-- One entry yielded by the UnixFS `fs.ls` iterator: `name`, `cid`
(already a string via `toString()`), `size` (a BigInt, or absent) and
`type`. -/
structure LsEntry where
  name : String
  cid : String
  size : Option Int
  etype : String
deriving Repr, DecidableEq

/-- The `FileEntry` object built from one iterator entry:
`size: entry.size ? Number(entry.size) : undefined` (BigInt zero is
falsy, so a zero size becomes `undefined`). -/
def toFileEntry (e : LsEntry) : FileEntry :=
  { name := e.name, cid := e.cid,
    size := match e.size with
      | some n => if n = 0 then JVal.undef else JVal.num n
      | none => JVal.undef,
    etype := e.etype }

/-- The progress messages the service worker posts
(`DIRECTORY_LISTING_PROGRESS` stages and the background
`SUBDIRECTORY_FILES_FOUND` / `SUBDIRECTORY_ERROR` updates). -/
inductive ProgressEvent where
  | starting
  | listing (entriesFound : Nat) (lastEntry : String)
  | complete (entriesFound : Nat) (duration : String)
  | error (msg : String)
  | subdirFound (subdirectory : String) (files : List FileEntry)
  | subdirError (subdirectory : String) (msg : String)
deriving Repr, DecidableEq

/-- A queued unit of background recursion:
`{ name, cid, path: entry.name }`. -/
structure SubdirectoryTask where
  name : String
  cid : String
  path : String
deriving Repr, DecidableEq

/-- The per-entry progress sends of the root listing loop, entering with
`entryCount = c`: each entry bumps the count first, then a `listing`
event is sent when `entryCount % 50 === 0 || entryCount <= 10`. -/
def swLoopEvents (c : Nat) : List LsEntry → List ProgressEvent
  | [] => []
  | e :: rest =>
      (if (c + 1) % 50 = 0 ∨ c + 1 ≤ 10
        then [ProgressEvent.listing (c + 1) e.name] else [])
      ++ swLoopEvents (c + 1) rest

/-- The service worker's `performShallowRetrieval(cidString, clientId)`
with a client attached, applied to the iteration behaviour of
`fs.ls(cid)`: the iterator yields `yielded` in order and then either
finishes (`failure = none`) or throws with message `failure = some msg`.
Returns the progress events posted in order, the result
(the accumulated `files` array, or the rethrown error), and the
subdirectory tasks queued for background processing (none when iteration
throws, since the throw skips the queue-processing call). `duration` is
the formatted elapsed-time string of the `complete` message. -/
def performShallowRetrieval (yielded : List LsEntry) (failure : Option String)
    (duration : String) :
    List ProgressEvent × Except String (List FileEntry) × List SubdirectoryTask :=
  let events := ProgressEvent.starting :: swLoopEvents 0 yielded
  match failure with
  | none =>
      (events ++ [ProgressEvent.complete yielded.length duration],
       Except.ok (yielded.map toFileEntry),
       (yielded.filter (fun e => e.etype = "directory")).map
         (fun e => { name := e.name, cid := e.cid, path := e.name }))
  | some msg =>
      (events ++ [ProgressEvent.error msg], Except.error msg, [])

/-- What one iteration of the `processSubdirectoriesInBackground` loop
posts for task `t`, given the behaviour `ls` of `CID.parse` plus
`fs.ls` on the task's CID: on success, a `SUBDIRECTORY_FILES_FOUND`
message carrying the entries with names prefixed by `t.path + '/'`, sent
only when at least one entry was found; on failure, a
`SUBDIRECTORY_ERROR` message with the task's path and the error
message. -/
def processTaskOutcome (ls : String → Except String (List LsEntry))
    (t : SubdirectoryTask) : List ProgressEvent :=
  match ls t.cid with
  | .ok entries =>
      let subdirFiles := entries.map
        (fun e => { toFileEntry e with name := t.path ++ "/" ++ e.name })
      if subdirFiles.length > 0
        then [ProgressEvent.subdirFound t.path subdirFiles] else []
  | .error msg => [ProgressEvent.subdirError t.path msg]

/-- `processSubdirectoriesInBackground(subdirectories, clientId)`: the
tasks are processed strictly in order, a failure only producing its error
message before the loop continues.  Besides the posted events, the list
of task CIDs the loop attempts to list is returned; the loop body never
queues further tasks, so these are the only CIDs background-walked. -/
def processSubdirectoriesInBackground (ls : String → Except String (List LsEntry)) :
    List SubdirectoryTask → List ProgressEvent × List String
  | [] => ([], [])
  | t :: rest =>
      let (evs, cids) := processSubdirectoriesInBackground ls rest
      (processTaskOutcome ls t ++ evs, t.cid :: cids)

/-- The CIDs background-walked after a successful root shallow listing
that yielded `rootYield`: the queued tasks' CIDs, as attempted by
`processSubdirectoriesInBackground`. -/
def backgroundWalkedCids (ls : String → Except String (List LsEntry))
    (rootYield : List LsEntry) : List String :=
  (processSubdirectoriesInBackground ls
    (performShallowRetrieval rootYield none "").2.2).2

/-- The path a background outcome event is about, if it is one. -/
def outcomePath : ProgressEvent → Option String
  | .subdirFound p _ => some p
  | .subdirError p _ => some p
  | _ => none

/-- `sendProgressMessage(clientId, data)` with a string client id: the
single client is looked up fresh via `self.clients.get(clientId)` against
the clients known to the service worker at that moment, and the message is
posted to it alone; nothing is sent when `clientId` is null or the client
is gone.  The returned list is the ids of the pages that receive the
message. -/
def sendProgressMessage (clients : List String) (clientId : Option String) :
    List String :=
  match clientId with
  | none => []
  | some c => if c ∈ clients then [c] else []

/-- `sendMessageToClient(message)`: `self.clients.matchAll()` is called
fresh and the message is posted to every client.  The returned list is
the ids of the pages that receive the message. -/
def sendMessageToClient (clients : List String) : List String := clients

end SW

/-- A matched `*_files.xml` / `*_meta.xml` pair. -/
structure FilePair where
  baseName : String
  filesXml : FileEntry
  metaXml : FileEntry
deriving Repr, DecidableEq

/-- One slot of the grouping map in `extractMatchingPairs`:
`{ files?: FileEntry; meta?: FileEntry }`. -/
structure PairSlot where
  filesEntry : Option FileEntry
  metaEntry : Option FileEntry
deriving Repr, DecidableEq

/-- Insertion-ordered `Map.set`-style update: an existing key is updated
in place, a new key is appended (JS `Map` iteration follows first
insertion order). -/
def slotUpsert : List (String × PairSlot) → String → (PairSlot → PairSlot) →
    List (String × PairSlot)
  | [], k, f => [(k, f { filesEntry := none, metaEntry := none })]
  | (k', s) :: rest, k, f =>
      if k' = k then (k', f s) :: rest else (k', s) :: slotUpsert rest k f

/-- `name.replace(/_(?:files|meta)\.xml$/, '')` for a name known to end in
one of the two suffixes (they cannot both be suffixes of the same name,
so the regex strips exactly the suffix that matches):
`'_files.xml'` is 10 characters, `'_meta.xml'` is 9. -/
def extractBaseName (n : String) : String :=
  if n.endsWith "_files.xml" then n.dropRight 10 else n.dropRight 9

/-- The service worker's `extractMatchingPairs(files)`: group the
`*_files.xml` / `*_meta.xml` entries by base name in first-seen order
(later entries overwriting the slot), then keep the base names for which
both slots are filled. -/
def extractMatchingPairs (files : List FileEntry) : List FilePair :=
  let filesMap := files.foldl
    (fun m file =>
      if file.name.endsWith "_files.xml" ∨ file.name.endsWith "_meta.xml" then
        let baseName := extractBaseName file.name
        if file.name.endsWith "_files.xml" then
          slotUpsert m baseName (fun s => { s with filesEntry := some file })
        else
          slotUpsert m baseName (fun s => { s with metaEntry := some file })
      else m)
    []
  filesMap.filterMap (fun p =>
    match p.2.filesEntry, p.2.metaEntry with
    | some fx, some mx => some { baseName := p.1, filesXml := fx, metaXml := mx }
    | _, _ => none)

namespace Manager

/-- The error message `getItemListing` throws when no XML pair exists. -/
def noPairsMsg : String :=
  "No matching XML pairs found (looking for *_files.xml and *_meta.xml)"

/-- The directory listing `getItemListing` ends up working on: the cached
files on a cache hit, otherwise the service worker's `SHALLOW_RETRIEVAL`
response `networkFiles`. -/
def resolvedListing (store : Store) (now : Nat) (cid : String)
    (networkFiles : List FileEntry) : List FileEntry :=
  match (getCachedDirectoryListing store now cid).1 with
  | some cachedFiles => cachedFiles
  | none => networkFiles

/-- `ServiceWorkerManager.getItemListing(cid, onProgress)`: on a cache
hit, extract pairs from the cached files and throw `noPairsMsg` when none
match; on a miss, `performShallowRetrieval` fetches and caches the
listing (the cache write happens before pair extraction), then the same
pair check runs on the fetched files.  `pairs.length === 0` rethrows
through the outer catch unchanged.  Returns
`{ originalFiles, pairs }` on success, together with the updated store. -/
def getItemListing (store : Store) (now : Nat) (cid : String)
    (networkFiles : List FileEntry) :
    Except String (List FileEntry × List FilePair) × Store :=
  match getCachedDirectoryListing store now cid with
  | (some cachedFiles, store') =>
      let pairs := extractMatchingPairs cachedFiles
      if pairs.length = 0 then (Except.error noPairsMsg, store')
      else (Except.ok (cachedFiles, pairs), store')
  | (none, store') =>
      let store'' := setCachedDirectoryListing store' now cid networkFiles
      let pairs := extractMatchingPairs networkFiles
      if pairs.length = 0 then (Except.error noPairsMsg, store'')
      else (Except.ok (networkFiles, pairs), store'')

end Manager

namespace Page

/-- The `SUBDIRECTORY_FILES_FOUND` branch of Home.jsx's background
progress handler: when the page holds no results
(`if (!prevResults) return prevResults`) nothing happens — in particular
no cache write; otherwise the new files are appended to the in-memory
`originalFiles` array and `setCachedDirectoryListing` overwrites the
persisted record for `cid` with the appended list.  Returns the updated
in-memory list (if any) and the updated store. -/
def integrateSubdirectoryFiles (results : Option (List FileEntry))
    (store : Store) (now : Nat) (cid : String) (newFiles : List FileEntry) :
    Option (List FileEntry) × Store :=
  match results with
  | none => (none, store)
  | some originalFiles =>
      let updated := originalFiles ++ newFiles
      (some updated, Manager.setCachedDirectoryListing store now cid updated)

end Page

namespace Gateway

/-- The service worker's MIME table object, as key lookup:
`mimeTypes[ext]` is `undefined` for keys not in the table. -/
def mimeTypes (ext : String) : Option String :=
  if ext = "jpg" then some "image/jpeg"
  else if ext = "jpeg" then some "image/jpeg"
  else if ext = "png" then some "image/png"
  else if ext = "gif" then some "image/gif"
  else if ext = "tif" then some "image/tiff"
  else if ext = "tiff" then some "image/tiff"
  else if ext = "jp2" then some "image/jp2"
  else if ext = "webp" then some "image/webp"
  else if ext = "bmp" then some "image/bmp"
  else if ext = "pdf" then some "application/pdf"
  else if ext = "txt" then some "text/plain"
  else if ext = "html" then some "text/html"
  else if ext = "xml" then some "application/xml"
  else if ext = "css" then some "text/css"
  else if ext = "js" then some "application/javascript"
  else if ext = "json" then some "application/json"
  else none

/-- `filename.split('.')` over the characters of the name: JavaScript
`split` always returns at least one piece — the whole name when there is
no dot, empty pieces around consecutive or terminal dots. -/
def splitDot : List Char → List (List Char)
  | [] => [[]]
  | c :: rest =>
      let acc := splitDot rest
      if c = '.' then [] :: acc
      else match acc with
        | [] => [[c]]
        | piece :: pieces => (c :: piece) :: pieces

/-- `filename.split('.').pop()?.toLowerCase()`: the last piece of the
dot-split, lowercased character by character (ASCII lowercasing agrees
with JavaScript `toLowerCase` on every key of the MIME table; non-ASCII
extensions are in neither table and fall back identically). -/
def lastExtension (filename : String) : String :=
  String.mk ((((splitDot filename.toList).getLast?).getD []).map Char.toLower)

/-- `getMimeType(filename?)`: `application/octet-stream` when `filename`
is absent or empty (falsy), otherwise the MIME table entry for the
lowercased final extension, with the same fallback for unknown
extensions (`mimeTypes[ext] || 'application/octet-stream'`). -/
def getMimeType (filename : Option String) : String :=
  match filename with
  | none => "application/octet-stream"
  | some f =>
      if f = "" then "application/octet-stream"
      else (mimeTypes (lastExtension f)).getD "application/octet-stream"

/-- The spec's MIME table, written from its own wording: "jpg/jpeg →
image/jpeg, png → image/png, gif → image/gif, tif/tiff → image/tiff,
jp2 → image/jp2, webp → image/webp, bmp → image/bmp, pdf →
application/pdf, txt → text/plain, html → text/html, xml →
application/xml, css → text/css, js → application/javascript, json →
application/json; unknown → application/octet-stream", keyed by the
already-lowercased extension.  Used only to compare the code's table
against the spec's. -/
def specMimeLowered (e : String) : String :=
  if e = "jpg" ∨ e = "jpeg" then "image/jpeg"
  else if e = "png" then "image/png"
  else if e = "gif" then "image/gif"
  else if e = "tif" ∨ e = "tiff" then "image/tiff"
  else if e = "jp2" then "image/jp2"
  else if e = "webp" then "image/webp"
  else if e = "bmp" then "image/bmp"
  else if e = "pdf" then "application/pdf"
  else if e = "txt" then "text/plain"
  else if e = "html" then "text/html"
  else if e = "xml" then "application/xml"
  else if e = "css" then "text/css"
  else if e = "js" then "application/javascript"
  else if e = "json" then "application/json"
  else "application/octet-stream"

/-- The spec's MIME selection on a raw extension: case-insensitive table
lookup. -/
def specMimeFor (ext : String) : String :=
  specMimeLowered (String.mk (ext.toList.map Char.toLower))

/-- The characters of the literal `/ipfs-sw/` in the interception
pattern. -/
def swPathPat : List Char := "/ipfs-sw/".toList

/-- `url.pathname.match(/\/ipfs-sw\/([^/?]+)(\/.*)?/)` followed by the
handler's post-processing: scanning left to right for an occurrence of
`/ipfs-sw/` followed by at least one character that is neither `/` nor
`?`; on a match, the CID is that character run and `filePath` is the
remainder with its leading slash removed when present (the optional
second group only matches when the remainder starts with `/`).  The
pathname is assumed newline-free, as URL pathnames are. -/
def ipfsSwMatch : List Char → Option (String × String)
  | [] => none
  | ch :: rest =>
      if swPathPat.isPrefixOf (ch :: rest) then
        let after := (ch :: rest).drop 9
        let cidCs := after.takeWhile (fun c => c ≠ '/' ∧ c ≠ '?')
        if cidCs.isEmpty then ipfsSwMatch rest
        else
          let restCs := after.drop cidCs.length
          let fPath := match restCs with
            | '/' :: t => String.mk t
            | _ => ""
          some (String.mk cidCs, fPath)
      else ipfsSwMatch rest

/-- The Content-Type the fetch handler serves for an intercepted request,
from its pathname and the `filename` query parameter: `none` when the
pathname does not match the interception pattern (the handler answers 400
before any MIME computation), otherwise
`getMimeType(filename || undefined)` where
`filename = filePath || url.searchParams.get('filename')`. -/
def requestMimeType (pathname : String) (queryFilename : Option String) :
    Option String :=
  match ipfsSwMatch pathname.toList with
  | none => none
  | some (_, fPath) =>
      let filename : Option String :=
        if fPath ≠ "" then some fPath else queryFilename
      let filenameArg : Option String :=
        match filename with
        | some s => if s = "" then none else some s
        | none => none
      some (getMimeType filenameArg)

end Gateway

/-!
Theorems.  Helper lemmas come first, then one theorem per claim (with a
counterexample and an amended theorem where the claim fails on the code),
each with its witness where the statement carries hypotheses.
-/

theorem getItem_setItem_self (st : Store) (k : String) (v : CacheRecord) :
    LocalStorage.getItem (LocalStorage.setItem st k v) k = some v := by
  induction st with
  | nil => simp [LocalStorage.getItem, LocalStorage.setItem]
  | cons p rest ih =>
      by_cases h : p.1 = k
      · simp [LocalStorage.getItem, LocalStorage.setItem, h]
      · simp [LocalStorage.getItem, LocalStorage.setItem, h, ih]

theorem retentionWindow_pos : 0 < Manager.retentionWindowMs := by
  decide

/-- A fresh record under the cache key makes `performShallowRetrieval`
answer from the cache without touching the store or the network. -/
theorem performShallowRetrieval_hit (store : Store) (now : Nat) (cid : String)
    (networkFiles : List FileEntry) (rec : CacheRecord)
    (hget : LocalStorage.getItem store (Manager.cacheKey cid) = some rec)
    (hts : rec.timestamp ≠ 0)
    (hfresh : now - rec.timestamp < Manager.retentionWindowMs) :
    Manager.performShallowRetrieval store now cid networkFiles
      = { files := rec.files, store := store, networkRequested := false } := by
  simp [Manager.performShallowRetrieval, Manager.getCachedDirectoryListing,
    hget, hts, hfresh]

/-- After any `performShallowRetrieval` call at a positive clock reading,
the store holds a record for the CID that is still fresh at the same
reading. -/
theorem performShallowRetrieval_caches (store : Store) (now : Nat)
    (cid : String) (networkFiles : List FileEntry) (hnow : 0 < now) :
    ∃ rec : CacheRecord,
      LocalStorage.getItem
          (Manager.performShallowRetrieval store now cid networkFiles).store
          (Manager.cacheKey cid) = some rec
      ∧ rec.timestamp ≠ 0
      ∧ now - rec.timestamp < Manager.retentionWindowMs := by
  rcases hget : LocalStorage.getItem store (Manager.cacheKey cid) with _ | rec
  · refine ⟨⟨networkFiles.map serializeFile, now, cid⟩, ?_, ?_, ?_⟩
    · simp [Manager.performShallowRetrieval, Manager.getCachedDirectoryListing,
        hget, Manager.setCachedDirectoryListing, getItem_setItem_self]
    · simpa using hnow.ne'
    · simpa using retentionWindow_pos
  · by_cases hfresh : rec.timestamp ≠ 0 ∧ now - rec.timestamp < Manager.retentionWindowMs
    · refine ⟨rec, ?_, hfresh.1, hfresh.2⟩
      simp [Manager.performShallowRetrieval, Manager.getCachedDirectoryListing,
        hget, hfresh.1, hfresh.2]
    · refine ⟨⟨networkFiles.map serializeFile, now, cid⟩, ?_, ?_, ?_⟩
      · simp [Manager.performShallowRetrieval, Manager.getCachedDirectoryListing,
          hget, hfresh, Manager.setCachedDirectoryListing, getItem_setItem_self]
      · simpa using hnow.ne'
      · simpa using retentionWindow_pos

/-- C2: calling `performShallowRetrieval` (as `getItemListing` and
`getSpecificItem` do) twice in succession for the same CID, with no
intervening eviction and a positive clock reading, makes the second call
hit the `DirectoryCache`: it sends no `SHALLOW_RETRIEVAL` message to the
background process (regardless of what the network would answer), leaves
the store untouched, and returns exactly the entries persisted by the
first call. -/
theorem c2_second_call_hits_cache (store : Store) (now : Nat) (cid : String)
    (networkFiles networkFiles' : List FileEntry) (hnow : 0 < now) :
    (Manager.performShallowRetrieval
        (Manager.performShallowRetrieval store now cid networkFiles).store
        now cid networkFiles').networkRequested = false
  ∧ (Manager.performShallowRetrieval
        (Manager.performShallowRetrieval store now cid networkFiles).store
        now cid networkFiles').store
      = (Manager.performShallowRetrieval store now cid networkFiles).store
  ∧ ∃ rec : CacheRecord,
      LocalStorage.getItem
          (Manager.performShallowRetrieval store now cid networkFiles).store
          (Manager.cacheKey cid) = some rec
      ∧ (Manager.performShallowRetrieval
            (Manager.performShallowRetrieval store now cid networkFiles).store
            now cid networkFiles').files = rec.files := by
  obtain ⟨rec, hget, hts, hfresh⟩ :=
    performShallowRetrieval_caches store now cid networkFiles hnow
  have hsecond := performShallowRetrieval_hit
    (Manager.performShallowRetrieval store now cid networkFiles).store
    now cid networkFiles' rec hget hts hfresh
  refine ⟨by rw [hsecond], by rw [hsecond], rec, hget, by rw [hsecond]⟩

/-- C2 witness: an empty store, clock reading 1 and an empty network
response instantiate the hypotheses of `c2_second_call_hits_cache`. -/
theorem c2_witness :
    (0 : Nat) < 1
  ∧ ((Manager.performShallowRetrieval
        (Manager.performShallowRetrieval [] 1 "bafycid" []).store
        1 "bafycid" [⟨"x", "cx", JVal.undef, "file"⟩]).networkRequested = false
  ∧ (Manager.performShallowRetrieval
        (Manager.performShallowRetrieval [] 1 "bafycid" []).store
        1 "bafycid" [⟨"x", "cx", JVal.undef, "file"⟩]).store
      = (Manager.performShallowRetrieval [] 1 "bafycid" []).store
  ∧ ∃ rec : CacheRecord,
      LocalStorage.getItem
          (Manager.performShallowRetrieval [] 1 "bafycid" []).store
          (Manager.cacheKey "bafycid") = some rec
      ∧ (Manager.performShallowRetrieval
            (Manager.performShallowRetrieval [] 1 "bafycid" []).store
            1 "bafycid" [⟨"x", "cx", JVal.undef, "file"⟩]).files = rec.files) :=
  ⟨by decide,
   c2_second_call_hits_cache [] 1 "bafycid" [] [⟨"x", "cx", JVal.undef, "file"⟩]
     (by decide)⟩

/-- While construction is in flight and the in-flight attempt has not yet
assigned `helia`/`fs`, an `initHelia()` call joins the in-flight promise
and changes nothing. -/
theorem initHelia_inflight (s : SW.SWState) (p freshPromise : Nat)
    (hInit : s.isInitializing = true)
    (hProm : s.initializationPromise = some p)
    (hRefs : s.helia = none ∨ s.fs = none) :
    SW.initHelia s freshPromise = (SW.AcquireOutcome.awaits p, s) := by
  rcases hRefs with h | h <;>
    simp [SW.initHelia, hInit, hProm, h]

theorem acquireK_inflight (s : SW.SWState) (p : Nat)
    (hInit : s.isInitializing = true)
    (hProm : s.initializationPromise = some p)
    (hRefs : s.helia = none ∨ s.fs = none) :
    ∀ (k freshPromise : Nat),
      SW.acquireK s freshPromise k
        = (List.replicate k (SW.AcquireOutcome.awaits p), s) := by
  intro k
  induction k with
  | zero => intro freshPromise; simp [SW.acquireK]
  | succ k ih =>
      intro freshPromise
      simp [SW.acquireK, initHelia_inflight s p freshPromise hInit hProm hRefs,
        ih, List.replicate_succ]

/-- C1 counterexample: the claim fails as stated.  Start from the fresh
service worker state, begin construction (first `initHelia()` call), let
the `createHeliaHTTP` race resolve so `doInitialization` assigns `helia`
and `fs` and suspends on `await createVerifiedFetch(helia)`.
Construction is still in flight (`isInitializing` is true), yet a second
`initHelia()` call arriving now returns immediately with a null
`verifiedFetch`, while the first caller eventually receives the completed
`{ helia, fs, verifiedFetch }` — two callers of `acquire()` during one
in-flight construction observe different results. -/
theorem c1_counterexample :
    (SW.midCreateAssign (SW.initHelia SW.swState0 1).2 7 8).isInitializing = true
  ∧ (SW.initHelia (SW.midCreateAssign (SW.initHelia SW.swState0 1).2 7 8) 2).1
      = SW.AcquireOutcome.immediate (some 7) (some 8) none
  ∧ SW.promiseValue (SW.midCreateAssign (SW.initHelia SW.swState0 1).2 7 8) 9
      = SW.AcquireOutcome.immediate (some 7) (some 8) (some 9)
  ∧ (SW.initHelia (SW.midCreateAssign (SW.initHelia SW.swState0 1).2 7 8) 2).1
      ≠ SW.promiseValue (SW.midCreateAssign (SW.initHelia SW.swState0 1).2 7 8) 9 := by
  refine ⟨rfl, rfl, rfl, ?_⟩
  decide

/-- C1 (amended): for every K, invoking `initHelia()` K times while a
construction is in flight **and before the in-flight attempt has assigned
its `helia`/`fs` references** results in no further `doInitialization`
call (exactly the one in-flight construction attempt), every caller
joining the same in-flight promise — hence all K receive that promise's
one settlement — and the state unchanged.  (A caller arriving in the
window after `helia`/`fs` are assigned but before `verifiedFetch` is
returns immediately with a possibly-null `verifiedFetch`, per the
counterexample.)  If construction fails, `helia`, `fs`, `verifiedFetch`
and the in-flight promise are all reset, so the next `acquire()` starts a
fresh construction attempt from scratch. -/
theorem c1_acquire_coalescing (s : SW.SWState) (p freshPromise : Nat) (K : Nat)
    (hInit : s.isInitializing = true)
    (hProm : s.initializationPromise = some p)
    (hRefs : s.helia = none ∨ s.fs = none) :
    (SW.acquireK s freshPromise K).1
      = List.replicate K (SW.AcquireOutcome.awaits p)
  ∧ (SW.acquireK s freshPromise K).2 = s
  ∧ (SW.acquireK s freshPromise K).2.attempts = s.attempts
  ∧ (SW.settleFailure s).helia = none
  ∧ (SW.settleFailure s).fs = none
  ∧ (SW.settleFailure s).verifiedFetch = none
  ∧ (SW.settleFailure s).initializationPromise = none
  ∧ (SW.initHelia (SW.settleFailure s) freshPromise).1
      = SW.AcquireOutcome.awaits freshPromise
  ∧ (SW.initHelia (SW.settleFailure s) freshPromise).2.attempts
      = s.attempts + 1
  ∧ (SW.initHelia (SW.settleFailure s) freshPromise).2.isInitializing = true := by
  have hk := acquireK_inflight s p hInit hProm hRefs K freshPromise
  refine ⟨by rw [hk], by rw [hk], by rw [hk], rfl, rfl, rfl, rfl, ?_, ?_, ?_⟩ <;>
    simp [SW.initHelia, SW.settleFailure]

/-- C1 witness: a concrete in-flight state (no references assigned,
promise 5 in flight, one construction attempt so far) with K = 3
discharges the hypotheses of `c1_acquire_coalescing`. -/
theorem c1_acquire_coalescing_witness :
    (SW.acquireK ⟨none, none, none, true, some 5, 1⟩ 10 3).1
      = List.replicate 3 (SW.AcquireOutcome.awaits 5)
  ∧ (SW.acquireK ⟨none, none, none, true, some 5, 1⟩ 10 3).2
      = ⟨none, none, none, true, some 5, 1⟩
  ∧ (SW.acquireK ⟨none, none, none, true, some 5, 1⟩ 10 3).2.attempts
      = SW.SWState.attempts ⟨none, none, none, true, some 5, 1⟩
  ∧ (SW.settleFailure ⟨none, none, none, true, some 5, 1⟩).helia = none
  ∧ (SW.settleFailure ⟨none, none, none, true, some 5, 1⟩).fs = none
  ∧ (SW.settleFailure ⟨none, none, none, true, some 5, 1⟩).verifiedFetch = none
  ∧ (SW.settleFailure ⟨none, none, none, true, some 5, 1⟩).initializationPromise = none
  ∧ (SW.initHelia (SW.settleFailure ⟨none, none, none, true, some 5, 1⟩) 10).1
      = SW.AcquireOutcome.awaits 10
  ∧ (SW.initHelia (SW.settleFailure ⟨none, none, none, true, some 5, 1⟩) 10).2.attempts
      = SW.SWState.attempts ⟨none, none, none, true, some 5, 1⟩ + 1
  ∧ (SW.initHelia (SW.settleFailure ⟨none, none, none, true, some 5, 1⟩) 10).2.isInitializing
      = true :=
  c1_acquire_coalescing ⟨none, none, none, true, some 5, 1⟩ 5 10 3 rfl rfl
    (Or.inl rfl)

/-- Closed form of the root-listing loop's progress sends: entering with
`entryCount = c`, entry number `c + i + 1` produces a `listing` event
exactly when that running count is a multiple of 50 or at most 10. -/
theorem swLoopEvents_closed (l : List SW.LsEntry) :
    ∀ c : Nat,
      SW.swLoopEvents c l
        = ((List.enumFrom (c + 1) l).filter
            (fun p => p.1 % 50 = 0 ∨ p.1 ≤ 10)).map
            (fun p => SW.ProgressEvent.listing p.1 p.2.name) := by
  induction l with
  | nil => intro c; simp [SW.swLoopEvents]
  | cons e rest ih =>
      intro c
      simp only [SW.swLoopEvents, List.enumFrom_cons, List.filter_cons]
      by_cases h : (c + 1) % 50 = 0 ∨ c + 1 ≤ 10
      · rw [if_pos h, if_pos (by simpa using h), List.map_cons, ih (c + 1)]
        rfl
      · rw [if_neg h, if_neg (by simpa using h), ih (c + 1)]
        rfl

/-- C3: during one shallow listing with a client attached, the progress
events are exactly: one `starting` event first; a `listing` event for
entry number `n` precisely when `n` is a multiple of 50 or among the
first 10, carrying the running count and that entry's name; then one
`complete` event carrying the total entry count and the elapsed duration
— or, when iteration throws, one `error` event carrying the failure
message in place of the `complete` event. -/
theorem c3_shallow_progress_events (yielded : List SW.LsEntry)
    (failure : Option String) (duration : String) :
    (SW.performShallowRetrieval yielded failure duration).1
      = SW.ProgressEvent.starting ::
          (((List.enumFrom 1 yielded).filter
              (fun p => p.1 % 50 = 0 ∨ p.1 ≤ 10)).map
              (fun p => SW.ProgressEvent.listing p.1 p.2.name)
            ++ [match failure with
                | none => SW.ProgressEvent.complete yielded.length duration
                | some msg => SW.ProgressEvent.error msg]) := by
  cases failure <;>
    simp [SW.performShallowRetrieval, swLoopEvents_closed yielded 0]

/-- One background task posts at most one outcome message. -/
theorem processTaskOutcome_length_le
    (ls : String → Except String (List SW.LsEntry)) (t : SW.SubdirectoryTask) :
    (SW.processTaskOutcome ls t).length ≤ 1 := by
  cases h : ls t.cid with
  | ok entries =>
      simp only [SW.processTaskOutcome, h]
      split <;> simp
  | error msg => simp [SW.processTaskOutcome, h]

/-- The path of a task's outcome message, when there is one, is the
task's own path. -/
theorem processTaskOutcome_paths
    (ls : String → Except String (List SW.LsEntry)) (t : SW.SubdirectoryTask) :
    List.Sublist ((SW.processTaskOutcome ls t).filterMap SW.outcomePath)
      [t.path] := by
  cases h : ls t.cid with
  | ok entries =>
      simp only [SW.processTaskOutcome, h]
      split
      · simp [SW.outcomePath]
      · simp
  | error msg => simp [SW.processTaskOutcome, h, SW.outcomePath]

/-- The paths of the posted outcome messages are a sublist of the task
paths, in order. -/
theorem processSubdirs_paths_sublist
    (ls : String → Except String (List SW.LsEntry)) :
    ∀ tasks : List SW.SubdirectoryTask,
      List.Sublist
        (((SW.processSubdirectoriesInBackground ls tasks).1).filterMap
          SW.outcomePath)
        (tasks.map SW.SubdirectoryTask.path) := by
  intro tasks
  induction tasks with
  | nil => simp [SW.processSubdirectoriesInBackground]
  | cons t rest ih =>
      simp only [SW.processSubdirectoriesInBackground, List.map_cons,
        List.filterMap_append]
      exact List.Sublist.append (processTaskOutcome_paths ls t) ih

theorem processSubdirs_length_le
    (ls : String → Except String (List SW.LsEntry)) :
    ∀ tasks : List SW.SubdirectoryTask,
      ((SW.processSubdirectoriesInBackground ls tasks).1).length
        ≤ tasks.length := by
  intro tasks
  induction tasks with
  | nil => simp [SW.processSubdirectoriesInBackground]
  | cons t rest ih =>
      simp only [SW.processSubdirectoriesInBackground, List.length_append,
        List.length_cons]
      have := processTaskOutcome_length_le ls t
      omega

/-- Every posted outcome message belongs to one of the tasks: a
`SUBDIRECTORY_FILES_FOUND` message for the task's path carrying the
prefixed entries of a non-empty successful listing, or a
`SUBDIRECTORY_ERROR` message for the task's path carrying the listing
failure's message. -/
theorem processSubdirs_mem
    (ls : String → Except String (List SW.LsEntry)) :
    ∀ (tasks : List SW.SubdirectoryTask)
      (ev : SW.ProgressEvent),
      ev ∈ (SW.processSubdirectoriesInBackground ls tasks).1 →
      ∃ t, t ∈ tasks ∧
        ((∃ entries, ls t.cid = Except.ok entries ∧ entries ≠ [] ∧
            ev = SW.ProgressEvent.subdirFound t.path
              (entries.map (fun e =>
                { SW.toFileEntry e with name := t.path ++ "/" ++ e.name })))
          ∨ (∃ m, ls t.cid = Except.error m ∧
              ev = SW.ProgressEvent.subdirError t.path m)) := by
  intro tasks
  induction tasks with
  | nil => intro ev hev; simp [SW.processSubdirectoriesInBackground] at hev
  | cons t rest ih =>
      intro ev hev
      simp only [SW.processSubdirectoriesInBackground, List.mem_append] at hev
      rcases hev with hev | hev
      · refine ⟨t, List.mem_cons_self t rest, ?_⟩
        cases h : ls t.cid with
        | ok entries =>
            simp only [SW.processTaskOutcome, h, List.length_map] at hev
            by_cases hne : entries = []
            · rw [hne] at hev; simp at hev
            · rw [if_pos (List.length_pos.mpr hne)] at hev
              simp only [List.mem_singleton] at hev
              exact Or.inl ⟨entries, rfl, hne, hev⟩
        | error msg =>
            simp only [SW.processTaskOutcome, h, List.mem_singleton] at hev
            exact Or.inr ⟨msg, rfl, hev⟩
      · obtain ⟨t', ht', hprop⟩ := ih ev hev
        exact ⟨t', List.mem_cons_of_mem t ht', hprop⟩

/-- C4: for tasks queued from one root listing (pairwise distinct paths,
since they are the names of one directory's entries), background
processing posts at most one outcome per task — total outcomes at most
the number of tasks, every outcome naming a task path and no path named
twice; a non-empty successful listing yields a `subdirectory_found`
message carrying the discovered entries, a zero-entry success yields no
message, a failure yields a `subdirectory_error` message with the task's
path and the error message, after which processing continues with the
remaining tasks unaffected. -/
theorem c4_background_outcomes
    (ls : String → Except String (List SW.LsEntry))
    (tasks : List SW.SubdirectoryTask)
    (hnodup : (tasks.map SW.SubdirectoryTask.path).Nodup) :
    ((SW.processSubdirectoriesInBackground ls tasks).1).length ≤ tasks.length
  ∧ (((SW.processSubdirectoriesInBackground ls tasks).1).filterMap
      SW.outcomePath).Nodup
  ∧ (∀ ev ∈ (SW.processSubdirectoriesInBackground ls tasks).1,
      ∃ t, t ∈ tasks ∧
        ((∃ entries, ls t.cid = Except.ok entries ∧ entries ≠ [] ∧
            ev = SW.ProgressEvent.subdirFound t.path
              (entries.map (fun e =>
                { SW.toFileEntry e with name := t.path ++ "/" ++ e.name })))
          ∨ (∃ m, ls t.cid = Except.error m ∧
              ev = SW.ProgressEvent.subdirError t.path m)))
  ∧ (∀ (t : SW.SubdirectoryTask) (rest : List SW.SubdirectoryTask)
        (m : String), ls t.cid = Except.error m →
      (SW.processSubdirectoriesInBackground ls (t :: rest)).1
        = SW.ProgressEvent.subdirError t.path m ::
            (SW.processSubdirectoriesInBackground ls rest).1) := by
  refine ⟨processSubdirs_length_le ls tasks,
    (processSubdirs_paths_sublist ls tasks).nodup hnodup,
    processSubdirs_mem ls tasks, ?_⟩
  intro t rest m hm
  simp [SW.processSubdirectoriesInBackground, SW.processTaskOutcome, hm]

/-- C4 witness: two distinct-path tasks, the first listing successfully
with one entry and the second failing, discharge the hypothesis of
`c4_background_outcomes`. -/
theorem c4_background_outcomes_witness :
    (([⟨"d1", "cd1", "d1"⟩, ⟨"d2", "cd2", "d2"⟩] :
        List SW.SubdirectoryTask).map SW.SubdirectoryTask.path).Nodup
  ∧ ((SW.processSubdirectoriesInBackground
        (fun c => if c = "cd1"
          then Except.ok [⟨"in", "ci", none, "file"⟩]
          else Except.error "boom")
        [⟨"d1", "cd1", "d1"⟩, ⟨"d2", "cd2", "d2"⟩]).1).length
      ≤ ([⟨"d1", "cd1", "d1"⟩, ⟨"d2", "cd2", "d2"⟩] :
          List SW.SubdirectoryTask).length :=
  ⟨by decide,
   (c4_background_outcomes
      (fun c => if c = "cd1"
        then Except.ok [⟨"in", "ci", none, "file"⟩]
        else Except.error "boom")
      [⟨"d1", "cd1", "d1"⟩, ⟨"d2", "cd2", "d2"⟩] (by decide)).1⟩

/-- Background processing attempts exactly the queued tasks' CIDs: the
loop body never queues anything. -/
theorem processSubdirs_walked
    (ls : String → Except String (List SW.LsEntry)) :
    ∀ tasks : List SW.SubdirectoryTask,
      (SW.processSubdirectoriesInBackground ls tasks).2
        = tasks.map SW.SubdirectoryTask.cid := by
  intro tasks
  induction tasks with
  | nil => simp [SW.processSubdirectoriesInBackground]
  | cons t rest ih => simp [SW.processSubdirectoriesInBackground, ih]

/-- C5: background recursion is single-level.  The CIDs ever
background-walked after a root shallow listing are exactly the CIDs of
the root's immediate `directory` entries — whatever `ls` returns inside
those subdirectories (including further `directory` entries) is never
queued or walked. -/
theorem c5_single_level_recursion
    (ls : String → Except String (List SW.LsEntry))
    (rootYield : List SW.LsEntry) (c : String) :
    c ∈ SW.backgroundWalkedCids ls rootYield
      ↔ ∃ e, e ∈ rootYield ∧ e.etype = "directory" ∧ e.cid = c := by
  simp only [SW.backgroundWalkedCids, SW.performShallowRetrieval,
    processSubdirs_walked, List.map_map, List.mem_map, List.mem_filter,
    Function.comp]
  constructor
  · rintro ⟨e, ⟨he, hdir⟩, hcid⟩
    exact ⟨e, he, by simpa using hdir, hcid⟩
  · rintro ⟨e, he, hdir, hcid⟩
    exact ⟨e, ⟨he, by simpa using hdir⟩, hcid⟩

/-- C6 counterexample: the claim fails as stated.  With two pages
`pageA` and `pageB` known to the background process and a traversal
initiated by `pageA`, a progress event is delivered to `pageA` alone:
`sendProgressMessage` resolves the single initiating client and posts to
it, so `pageB` — though currently connected — receives nothing, and a
page that connects mid-traversal never receives the traversal's events
unless it is the initiator. -/
theorem c6_counterexample :
    "pageB" ∈ ["pageA", "pageB"]
  ∧ SW.sendProgressMessage ["pageA", "pageB"] (some "pageA") = ["pageA"]
  ∧ "pageB" ∉ SW.sendProgressMessage ["pageA", "pageB"] (some "pageA") := by
  decide

/-- C6 (amended): a traversal's progress events are delivered only to
the single client that initiated it, resolved fresh against the current
client set on each send (nothing is sent when no client id was supplied
or the initiator is gone); enumeration of *all* current pages, fresh per
call, is what `sendMessageToClient` does — and it is used only as the
response fallback when a request arrives without a source, not for
progress events. -/
theorem c6_progress_delivery (clients : List String)
    (clientId : Option String) :
    (∀ c ∈ SW.sendProgressMessage clients clientId, clientId = some c)
  ∧ (∀ c, clientId = some c → c ∈ clients →
      SW.sendProgressMessage clients clientId = [c])
  ∧ SW.sendProgressMessage clients none = []
  ∧ SW.sendMessageToClient clients = clients := by
  refine ⟨?_, ?_, rfl, rfl⟩
  · intro c hc
    cases clientId with
    | none => simp [SW.sendProgressMessage] at hc
    | some c' =>
        by_cases h : c' ∈ clients
        · simp [SW.sendProgressMessage, h] at hc
          rw [hc]
        · simp [SW.sendProgressMessage, h] at hc
  · intro c hc hmem
    rw [hc]
    simp [SW.sendProgressMessage, hmem]

/-- C6 witness: concrete clients and initiator discharge the inner
hypotheses of `c6_progress_delivery`. -/
theorem c6_progress_delivery_witness :
    SW.sendProgressMessage ["pageA", "pageB"] (some "pageA") = ["pageA"] :=
  (c6_progress_delivery ["pageA", "pageB"] (some "pageA")).2.1 "pageA" rfl
    (by decide)

/-- C7 counterexample: the claim fails as stated, in both directions.
The handler's guard is the page's in-memory results, not the persisted
record: (1) with in-memory results present but no persisted record for
the CID, the handler is not a no-op — it writes a record; (2) with a
persisted record present but no in-memory results, nothing is merged or
re-persisted even though newly discovered entries arrived. -/
theorem c7_counterexample :
    (LocalStorage.getItem ([] : Store) (Manager.cacheKey "c") = none
      ∧ (Page.integrateSubdirectoryFiles (some [])
          [] 1 "c" [⟨"d/a", "x", JVal.undef, "file"⟩]).2 ≠ [])
  ∧ (LocalStorage.getItem
        [(Manager.cacheKey "c",
          ⟨[⟨"a", "ca", JVal.undef, "file"⟩], 1, "c"⟩)] (Manager.cacheKey "c")
        = some ⟨[⟨"a", "ca", JVal.undef, "file"⟩], 1, "c"⟩
      ∧ Page.integrateSubdirectoryFiles none
          [(Manager.cacheKey "c",
            ⟨[⟨"a", "ca", JVal.undef, "file"⟩], 1, "c"⟩)]
          2 "c" [⟨"d/a", "x", JVal.undef, "file"⟩]
        = (none,
           [(Manager.cacheKey "c",
             ⟨[⟨"a", "ca", JVal.undef, "file"⟩], 1, "c"⟩)])) := by
  refine ⟨⟨rfl, ?_⟩, rfl, rfl⟩
  decide

/-- C7 (amended): the background-discovery handler is a no-op exactly
when the page holds no in-memory results; when it does, the newly
discovered entries are appended to the in-memory `originalFiles` list
and the persisted record for the CID is overwritten with that appended
list — in particular, whenever the in-memory list agrees with the
persisted record's entries (as it does along the normal flow, where the
results came from or were just written to the cache), the persisted
record is extended by appending the serialized new entries, never
rewritten otherwise. -/
theorem c7_append_discovered (store : Store) (now : Nat) (cid : String)
    (newFiles originalFiles : List FileEntry) (rec : CacheRecord) :
    Page.integrateSubdirectoryFiles none store now cid newFiles
      = (none, store)
  ∧ Page.integrateSubdirectoryFiles (some originalFiles) store now cid newFiles
      = (some (originalFiles ++ newFiles),
         Manager.setCachedDirectoryListing store now cid
           (originalFiles ++ newFiles))
  ∧ (LocalStorage.getItem store (Manager.cacheKey cid) = some rec →
      rec.files = originalFiles.map serializeFile →
      ∃ rec' : CacheRecord,
        LocalStorage.getItem
            (Page.integrateSubdirectoryFiles (some originalFiles)
              store now cid newFiles).2 (Manager.cacheKey cid) = some rec'
        ∧ rec'.files = rec.files ++ newFiles.map serializeFile) := by
  refine ⟨rfl, rfl, ?_⟩
  intro hget hfiles
  refine ⟨⟨(originalFiles ++ newFiles).map serializeFile, now, cid⟩, ?_, ?_⟩
  · simp [Page.integrateSubdirectoryFiles, Manager.setCachedDirectoryListing,
      getItem_setItem_self]
  · simp [hfiles]

/-- C7 witness: a store holding the record `{files: [a], timestamp: 1}`
for CID `c`, matching in-memory results `[a]`, and one newly discovered
entry discharge the hypotheses of `c7_append_discovered`. -/
theorem c7_append_discovered_witness :
    ∃ rec' : CacheRecord,
      LocalStorage.getItem
          (Page.integrateSubdirectoryFiles
            (some [⟨"a", "ca", JVal.undef, "file"⟩])
            [(Manager.cacheKey "c",
              ⟨[⟨"a", "ca", JVal.undef, "file"⟩], 1, "c"⟩)]
            2 "c" [⟨"d/b", "cb", JVal.undef, "file"⟩]).2
          (Manager.cacheKey "c") = some rec'
      ∧ rec'.files
          = CacheRecord.files ⟨[⟨"a", "ca", JVal.undef, "file"⟩], 1, "c"⟩
            ++ [⟨"d/b", "cb", JVal.undef, "file"⟩].map serializeFile :=
  (c7_append_discovered
    [(Manager.cacheKey "c", ⟨[⟨"a", "ca", JVal.undef, "file"⟩], 1, "c"⟩)]
    2 "c" [⟨"d/b", "cb", JVal.undef, "file"⟩]
    [⟨"a", "ca", JVal.undef, "file"⟩]
    ⟨[⟨"a", "ca", JVal.undef, "file"⟩], 1, "c"⟩).2.2 (by decide) (by decide)

/-- The code's MIME table with the `|| 'application/octet-stream'`
fallback agrees pointwise with the spec's table on every (already
lowercased) extension. -/
theorem mimeTypes_matches_spec (e : String) :
    (Gateway.mimeTypes e).getD "application/octet-stream"
      = Gateway.specMimeLowered e := by
  by_cases h1 : e = "jpg"
  · simp [Gateway.mimeTypes, Gateway.specMimeLowered, h1]
  by_cases h2 : e = "jpeg"
  · simp [Gateway.mimeTypes, Gateway.specMimeLowered, h1, h2]
  by_cases h3 : e = "png"
  · simp [Gateway.mimeTypes, Gateway.specMimeLowered, h1, h2, h3]
  by_cases h4 : e = "gif"
  · simp [Gateway.mimeTypes, Gateway.specMimeLowered, h1, h2, h3, h4]
  by_cases h5 : e = "tif"
  · simp [Gateway.mimeTypes, Gateway.specMimeLowered, h1, h2, h3, h4, h5]
  by_cases h6 : e = "tiff"
  · simp [Gateway.mimeTypes, Gateway.specMimeLowered, h1, h2, h3, h4, h5, h6]
  by_cases h7 : e = "jp2"
  · simp [Gateway.mimeTypes, Gateway.specMimeLowered, h1, h2, h3, h4, h5, h6, h7]
  by_cases h8 : e = "webp"
  · simp [Gateway.mimeTypes, Gateway.specMimeLowered, h1, h2, h3, h4, h5, h6, h7, h8]
  by_cases h9 : e = "bmp"
  · simp [Gateway.mimeTypes, Gateway.specMimeLowered, h1, h2, h3, h4, h5, h6, h7, h8, h9]
  by_cases h10 : e = "pdf"
  · simp [Gateway.mimeTypes, Gateway.specMimeLowered, h1, h2, h3, h4, h5, h6, h7, h8, h9, h10]
  by_cases h11 : e = "txt"
  · simp [Gateway.mimeTypes, Gateway.specMimeLowered, h1, h2, h3, h4, h5, h6, h7, h8, h9, h10, h11]
  by_cases h12 : e = "html"
  · simp [Gateway.mimeTypes, Gateway.specMimeLowered, h1, h2, h3, h4, h5, h6, h7, h8, h9, h10, h11, h12]
  by_cases h13 : e = "xml"
  · simp [Gateway.mimeTypes, Gateway.specMimeLowered, h1, h2, h3, h4, h5, h6, h7, h8, h9, h10, h11, h12, h13]
  by_cases h14 : e = "css"
  · simp [Gateway.mimeTypes, Gateway.specMimeLowered, h1, h2, h3, h4, h5, h6, h7, h8, h9, h10, h11, h12, h13, h14]
  by_cases h15 : e = "js"
  · simp [Gateway.mimeTypes, Gateway.specMimeLowered, h1, h2, h3, h4, h5, h6, h7, h8, h9, h10, h11, h12, h13, h14, h15]
  by_cases h16 : e = "json"
  · simp [Gateway.mimeTypes, Gateway.specMimeLowered, h1, h2, h3, h4, h5, h6, h7, h8, h9, h10, h11, h12, h13, h14, h15, h16]
  simp [Gateway.mimeTypes, Gateway.specMimeLowered, h1, h2, h3, h4, h5, h6, h7, h8, h9, h10, h11, h12, h13, h14, h15, h16]

/-- C8: a request for `/ipfs-sw/<cid>/photo.jpg` with no query
parameters is served with `Content-Type: image/jpeg`; the same CID with
no filename (no path segment, no `filename` query parameter) is served
with `application/octet-stream`; an absent or empty filename always
yields `application/octet-stream`; and in general the content type of a
non-empty filename is the spec's case-insensitive extension table applied
to the final `.`-separated piece of the name, with
`application/octet-stream` for unknown or absent extensions. -/
theorem c8_mime_selection :
    Gateway.requestMimeType "/ipfs-sw/bafybeifexamplecid/photo.jpg" none
      = some "image/jpeg"
  ∧ Gateway.requestMimeType "/ipfs-sw/bafybeifexamplecid" none
      = some "application/octet-stream"
  ∧ Gateway.getMimeType none = "application/octet-stream"
  ∧ Gateway.getMimeType (some "") = "application/octet-stream"
  ∧ ∀ f : String, f ≠ "" →
      Gateway.getMimeType (some f)
        = Gateway.specMimeFor
            (String.mk (((Gateway.splitDot f.toList).getLast?).getD [])) := by
  refine ⟨by decide, by decide, rfl, rfl, ?_⟩
  intro f hf
  rw [Gateway.getMimeType, if_neg hf]
  exact mimeTypes_matches_spec _

/-- C8 witness: the filename `photo.jpg` discharges the hypothesis of the
general clause of `c8_mime_selection`. -/
theorem c8_mime_selection_witness :
    Gateway.getMimeType (some "photo.jpg")
      = Gateway.specMimeFor
          (String.mk (((Gateway.splitDot "photo.jpg".toList).getLast?).getD [])) :=
  c8_mime_selection.2.2.2.2 "photo.jpg" (by decide)

/-- C9: writing a cache record at a positive clock reading and reading it
back before the retention window elapses returns exactly the entry list
that was written, except that BigInt-valued size fields are coerced to
their decimal string representation; entries without a BigInt field are
persisted unchanged. -/
theorem c9_cache_roundtrip (store : Store) (now now' : Nat) (cid : String)
    (files : List FileEntry) (hnow : 0 < now)
    (hfresh : now' - now < Manager.retentionWindowMs) :
    (Manager.getCachedDirectoryListing
        (Manager.setCachedDirectoryListing store now cid files) now' cid).1
      = some (files.map serializeFile)
  ∧ (∀ f : FileEntry, (∀ n : Int, f.size ≠ JVal.big n) → serializeFile f = f)
  ∧ (∀ (f : FileEntry) (n : Int), f.size = JVal.big n →
      serializeFile f = { f with size := JVal.str (toString n) }) := by
  refine ⟨?_, ?_, ?_⟩
  · have h1 : now ≠ 0 := hnow.ne'
    simp [Manager.setCachedDirectoryListing, Manager.getCachedDirectoryListing,
      getItem_setItem_self, h1, hfresh]
  · intro f hf
    obtain ⟨nm, cd, sz, ty⟩ := f
    cases sz with
    | big n => exact absurd rfl (hf n)
    | str s => simp [serializeFile, coerceBigInt]
    | num n => simp [serializeFile, coerceBigInt]
    | undef => simp [serializeFile, coerceBigInt]
  · intro f n hsz
    simp [serializeFile, coerceBigInt, hsz]

/-- C9 witness: an empty store, write at time 1 and read-back at time 2
of a one-entry list with a BigInt size discharge the hypotheses of
`c9_cache_roundtrip`. -/
theorem c9_cache_roundtrip_witness :
    (Manager.getCachedDirectoryListing
        (Manager.setCachedDirectoryListing [] 1 "c"
          [⟨"f", "cf", JVal.big 7, "file"⟩]) 2 "c").1
      = some ([⟨"f", "cf", JVal.big 7, "file"⟩].map serializeFile) :=
  (c9_cache_roundtrip [] 1 2 "c" [⟨"f", "cf", JVal.big 7, "file"⟩]
    (by decide) (by decide)).1

/-- C10: `getItemListing` fails with the exact error
`'No matching XML pairs found (looking for *_files.xml and *_meta.xml)'`
whenever the listing it works on — cached on a hit, freshly retrieved on
a miss — contains no base name with both `<base>_files.xml` and
`<base>_meta.xml` entries; and every successful return carries a
non-empty pair list, the pairs of its own `originalFiles`, so a
zero-pair listing is never returned successfully, cache hit or not. -/
theorem c10_no_pairs_rejected (store : Store) (now : Nat) (cid : String)
    (networkFiles : List FileEntry) :
    (extractMatchingPairs
        (Manager.resolvedListing store now cid networkFiles) = [] →
      (Manager.getItemListing store now cid networkFiles).1
        = Except.error Manager.noPairsMsg)
  ∧ (∀ (files : List FileEntry) (pairs : List FilePair),
      (Manager.getItemListing store now cid networkFiles).1
          = Except.ok (files, pairs) →
      pairs ≠ [] ∧ pairs = extractMatchingPairs files) := by
  rcases hget : Manager.getCachedDirectoryListing store now cid
    with ⟨_ | cachedFiles, store'⟩
  · constructor
    · intro hpairs
      rw [Manager.resolvedListing, hget] at hpairs
      simp only [Manager.getItemListing, hget]
      rw [if_pos (by simp [hpairs])]
    · intro files pairs hok
      simp only [Manager.getItemListing, hget] at hok
      by_cases hlen : (extractMatchingPairs networkFiles).length = 0
      · rw [if_pos hlen] at hok; exact absurd hok (by simp)
      · rw [if_neg hlen] at hok
        simp only [Except.ok.injEq, Prod.mk.injEq] at hok
        refine ⟨?_, ?_⟩
        · intro hnil
          exact hlen (by simp [hok.2, hnil])
        · rw [← hok.1, ← hok.2]
  · constructor
    · intro hpairs
      rw [Manager.resolvedListing, hget] at hpairs
      simp only [Manager.getItemListing, hget]
      rw [if_pos (by simp [hpairs])]
    · intro files pairs hok
      simp only [Manager.getItemListing, hget] at hok
      by_cases hlen : (extractMatchingPairs cachedFiles).length = 0
      · rw [if_pos hlen] at hok; exact absurd hok (by simp)
      · rw [if_neg hlen] at hok
        simp only [Except.ok.injEq, Prod.mk.injEq] at hok
        refine ⟨?_, ?_⟩
        · intro hnil
          exact hlen (by simp [hok.2, hnil])
        · rw [← hok.1, ← hok.2]

/-- C10 witness: an empty store and an empty network listing (hence no
XML pairs) discharge the hypothesis of `c10_no_pairs_rejected`. -/
theorem c10_no_pairs_rejected_witness :
    (Manager.getItemListing [] 1 "c" []).1
      = Except.error Manager.noPairsMsg :=
  (c10_no_pairs_rejected [] 1 "c" []).1 (by decide)
